import Mathlib

namespace GfArch

/-- Bytes are modelled as lists of naturals; the source operates on `&[u8]`
and `Vec<u8>`, and every arithmetic cast (`as u32`, `& 0x00FFFFFF`) is made
explicit with `% 2^32` / `% 2^24`. -/
abbrev Bytes := List Nat

/-- `GfArchError` from the source (src/lib.rs lines 7-21). -/
inductive GfArchError where
  | ArchiveHeaderError
  | CompressionHeaderError
  | UnsupportedCompressionTypeError (code : Nat)
  | LZ10DecompressError
deriving DecidableEq, Repr

/-- `GFCPOffset` from the source (lines 23-27). -/
inductive GFCPOffset where
  | Default
  | Custom (offs : Nat)

/-- `Version` from the source (lines 29-35). -/
inductive Version where
  | V2
  | V3
  | V3_1

/-- `CompressionType` from the source (lines 37-42). -/
inductive CompressionType where
  | BPE
  | LZ10

/-- `FileEntry` from the source (lines 44-48). -/
structure FileEntry where
  nameOffset : Nat
  decompressedSize : Nat
  decompressedOffset : Nat
deriving DecidableEq, Repr

/-- `FileContents` from the source (lines 50-53); the Rust `String` filename
is modelled by its byte sequence. -/
structure FileContents where
  contents : Bytes
  filename : Bytes
deriving DecidableEq, Repr

/-- Little-endian recomposition of (up to) four bytes, as
`LittleEndian::read_u32` does on a 4-byte slice. -/
def le32 (b : Bytes) : Nat :=
  b.getD 0 0 + 256 * b.getD 1 0 + 65536 * b.getD 2 0 + 16777216 * b.getD 3 0

/-- The four little-endian bytes of a `u32` value, as
`LittleEndian::write_u32` / `to_le_bytes` produce. -/
def le32bytes (v : Nat) : Bytes :=
  [v % 256, v / 256 % 256, v / 65536 % 256, v / 16777216 % 256]

theorem le32_le32bytes (v : Nat) : le32 (le32bytes v) = v % 4294967296 := by
  show v % 256 + 256 * (v / 256 % 256) + 65536 * (v / 65536 % 256)
      + 16777216 * (v / 16777216 % 256) = v % 4294967296
  omega

/-- Rust slice indexing `&b[lo..hi]`: panics (modelled as `none`) unless
`lo ≤ hi ≤ b.len()`. -/
def slice (b : Bytes) (lo hi : Nat) : Option Bytes :=
  if lo ≤ hi ∧ hi ≤ b.length then some ((b.drop lo).take (hi - lo)) else none

/-- `LittleEndian::read_u32(&input[i..i+4])`: panics (`none`) when the slice
is out of range. -/
def readU32 (input : Bytes) (i : Nat) : Option Nat :=
  (slice input i (i + 4)).map le32

/-- Rust `buf[o..o+d.len()].copy_from_slice(&d)` (also covering a run of
single-byte stores): panics (`none`) when the target range exceeds the
buffer. -/
def writeBytes (buf : Bytes) (o : Nat) (d : Bytes) : Option Bytes :=
  if o + d.length ≤ buf.length then
    some (buf.take o ++ d ++ buf.drop (o + d.length))
  else none

/-- A sequence of buffer writes, performed in order; the first out-of-range
write aborts (panic, `none`), as the corresponding Rust statements would. -/
def writeMany : Bytes → List (Nat × Bytes) → Option Bytes
  | buf, [] => some buf
  | buf, (o, d) :: rest => do writeMany (← writeBytes buf o d) rest

/-- `input.chunks(0x10)` from the Rust slice API: consecutive chunks of 16
bytes, the last one possibly shorter; no chunks for an empty slice.
Structural recursion on a length fuel so that the kernel can evaluate it. -/
def chunks16Fuel : Nat → Bytes → List Bytes
  | _, [] => []
  | 0, b => [b]
  | fuel + 1, b => b.take 0x10 :: chunks16Fuel fuel (b.drop 0x10)

def chunks16 (b : Bytes) : List Bytes := chunks16Fuel b.length b

/-- `calculate_checksum` (source lines 79-87): the running `u32` result is
`c + result.wrapping_mul(137)`; both the multiplication and the addition are
reduced mod `2^32`. -/
def checksumLoop : Nat → Bytes → Nat
  | result, [] => result
  | result, c :: rest => checksumLoop ((c + result * 137 % 4294967296) % 4294967296) rest

def calculate_checksum (input : Bytes) : Nat := checksumLoop 0 input

/-- `read_string` (source lines 89-101): scans `&input[offset..]` up to the
first NUL; the initial slice panics (`none`) when `offset > input.len()`. -/
def read_string (input : Bytes) (offset : Nat) : Option Bytes :=
  if offset ≤ input.length then
    some ((input.drop offset).takeWhile (fun byte => byte ≠ 0))
  else none

/-- `FileEntry::from_bytes` (source lines 56-70) on a 16-byte record:
`name_offset` is the `u32` at 4 masked with `0x00FFFFFF` (i.e. mod `2^24`),
then the size and offset words.  The 16-byte length assertion is checked at
the call site in `extract`. -/
def FileEntry.from_bytes (b : Bytes) : FileEntry where
  nameOffset := le32 ((b.drop 4).take 4) % 16777216
  decompressedSize := le32 ((b.drop 8).take 4)
  decompressedOffset := le32 ((b.drop 0xC).take 4)

/-- The two external codecs (out-of-scope collaborators per the spec):
`bpe::encode`, `bpe::decode` (with `bpe::DEFAULT_STACK_SIZE` folded into the
collaborator) and `nintendo_lz::decompress_arr` (`Err` is `none`). -/
structure Codec where
  bpeEncode : Bytes → Bytes
  bpeDecode : Bytes → Bytes
  lz10Decompress : Bytes → Option Bytes

/-- A deterministic stub codec (the spec's design notes call for testing the
container codec with a stub coder): both BPE directions are the identity and
LZ10 decompression accepts everything. -/
def idCodec : Codec where
  bpeEncode := fun b => b
  bpeDecode := fun b => b
  lz10Decompress := fun b => some b

/-- A stub codec whose LZ10 decoder rejects every stream. -/
def rejectLzCodec : Codec where
  bpeEncode := fun b => b
  bpeDecode := fun b => b
  lz10Decompress := fun _ => none

def gfacMagic : Bytes := [71, 70, 65, 67]

def gfcpMagic : Bytes := [71, 70, 67, 80]

/-- Entry-table parsing stage of `extract` (source lines 119-126):
`input[0x30..].chunks(0x10).take(file_count).map(FileEntry::from_bytes)`;
the `assert_eq!(0x10, input.len())` inside `from_bytes` panics (`none`) when
a taken chunk is short. -/
def parseEntries (input : Bytes) (count : Nat) : Option (List FileEntry) := do
  let tail ← slice input 0x30 input.length
  let cs := (chunks16 tail).take count
  if cs.all (fun c => c.length = 0x10) then
    some (cs.map FileEntry.from_bytes)
  else none

/-- Filename-reading stage of `extract` (source lines 128-134). -/
def readNames (input : Bytes) (entries : List FileEntry) : Option (List Bytes) :=
  entries.mapM (fun entry => read_string input entry.nameOffset)

/-- Decompression stage of `extract` (source lines 144-186): reads the
compression-type word at `gfcp_offset + 8`, maps `1 ↦ BPE` and `3 ↦ LZ10`,
rejects any other code, and runs the corresponding external decoder on
`input[gfcp_offset + 0x14..]`; for LZ10 a 4-byte `0x10` + 3-byte size header
is synthesized first and a decoder failure becomes `LZ10DecompressError`. -/
def decompressStage (C : Codec) (input : Bytes) (gfcp_offset : Nat) :
    Option (Except GfArchError Bytes) := do
  let raw ← readU32 input (gfcp_offset + 0x8)
  match raw with
  | 1 => do
      let payload ← slice input (gfcp_offset + 0x14) input.length
      some (.ok (C.bpeDecode payload))
  | 3 => do
      let decompressed_size ← readU32 input (gfcp_offset + 0xC)
      let payload ← slice input (gfcp_offset + 0x14) input.length
      let lz_chunk := 0x10 :: (le32bytes decompressed_size).take 3 ++ payload
      match C.lz10Decompress lz_chunk with
      | some decompressed => some (.ok decompressed)
      | none => some (.error .LZ10DecompressError)
  | code => some (.error (.UnsupportedCompressionTypeError code))

/-- Final slicing stage of `extract` (source lines 188-197): for each index
below `file_count`, `entries[i]` (panic when out of range), the debug-mode
underflowing subtraction `decompressed_offset - gfcp_offset` (panic when the
offset is below `gfcp_offset`; in release the wrapped offset makes the
following slice panic instead), and the unchecked slice of the decompressed
chunk. -/
def assembleFiles (entries : List FileEntry) (filenames : List Bytes)
    (gfcp_offset count : Nat) (chunk : Bytes) : Option (List FileContents) :=
  (List.range count).mapM fun i => do
    let entry ← entries.get? i
    if gfcp_offset ≤ entry.decompressedOffset then
      let offset := entry.decompressedOffset - gfcp_offset
      let contents ← slice chunk offset (offset + entry.decompressedSize)
      let filename ← filenames.get? i
      some (⟨contents, filename⟩ : FileContents)
    else none

/-- `extract` (source lines 110-200), with panics modelled as `none` and the
returned `Result` as `Except`. -/
def extract (C : Codec) (input : Bytes) :
    Option (Except GfArchError (List FileContents)) := do
  let magic ← slice input 0 4
  if magic ≠ gfacMagic then
    return .error .ArchiveHeaderError
  let file_count ← readU32 input 0x2C
  let entries ← parseEntries input file_count
  let filenames ← readNames input entries
  let gfcp_offset ← readU32 input 0x14
  let m ← slice input gfcp_offset (gfcp_offset + 4)
  if m ≠ gfcpMagic then
    return .error .CompressionHeaderError
  match ← decompressStage C input gfcp_offset with
  | .error e => return .error e
  | .ok decompressed_chunk => do
      let files ← assembleFiles entries filenames gfcp_offset file_count decompressed_chunk
      return .ok files

/-- `n.next_multiple_of(0x10)`. -/
def round16 (n : Nat) : Nat := (n + 15) / 16 * 16

/-- Zero-padding of the accumulated payload up to the next multiple of 16,
as `decompressed_chunk.resize(len.next_multiple_of(0x10), 0)` does. -/
def padTo16 (b : Bytes) : Bytes :=
  b ++ List.replicate (round16 b.length - b.length) 0

/-- Payload concatenation in `pack_from_files` (source lines 266-274): each
file's contents followed by a resize of the whole chunk to the next multiple
of 16. -/
def decompressedChunk (input : List FileContents) : Bytes :=
  input.foldl (fun acc f => padTo16 (acc ++ f.contents)) []

/-- `file_name_section_length` (source lines 282-286). -/
def nameSectionLength (input : List FileContents) : Nat :=
  input.foldl (fun acc f => acc + f.filename.length) 0

/-- `archive_size` (source lines 288-300). -/
def archive_size (offset : GFCPOffset) (file_count name_len compressed_len : Nat) : Nat :=
  match offset with
  | .Default => 0x30 + file_count * 0x10 + round16 name_len + 0x14 + compressed_len
  | .Custom offs => offs + 0x14 + compressed_len

def versionCode : Version → Nat
  | .V2 => 0x0200
  | .V3 => 0x0300
  | .V3_1 => 0x0301

def compressionCode : CompressionType → Nat
  | .BPE => 1
  | .LZ10 => 3

/-- One file entry record as computed by the write loop of `pack_from_files`
(source lines 361-389). -/
structure EntryRec where
  checksum : Nat
  nameOffset : Nat
  size : Nat
  offset : Nat
deriving DecidableEq, Repr

instance : Inhabited EntryRec := ⟨⟨0, 0, 0, 0⟩⟩

/-- The file entry records written by `pack_from_files` (source lines
356-389): a running name cursor (the last entry gets bit 31 OR'd in after
the `as u32` cast) and a running decompressed-data cursor advanced by each
content length rounded up to a multiple of 16; `i == file_count - 1` is
rendered as "the tail is empty". -/
def entryRecords : List FileContents → Nat → Nat → List EntryRec
  | [], _, _ => []
  | f :: rest, cur_name_offset, decompressed_offset =>
    { checksum := calculate_checksum f.filename
      nameOffset :=
        if rest.isEmpty then cur_name_offset % 4294967296 ||| 0x80000000
        else cur_name_offset % 4294967296
      size := f.contents.length % 4294967296
      offset := decompressed_offset % 4294967296 }
    :: entryRecords rest (cur_name_offset + f.filename.length + 1)
        (decompressed_offset + round16 (f.contents.length % 4294967296))

/-- The 16 bytes of one entry record (four `write_u32` calls, source lines
377-384). -/
def entryRecBytes (r : EntryRec) : Bytes :=
  le32bytes r.checksum ++ le32bytes r.nameOffset ++ le32bytes r.size ++ le32bytes r.offset

/-- The entry-table writes, 16 bytes per record at `0x30 + 0x10*i`. -/
def entryWrites : List EntryRec → Nat → List (Nat × Bytes)
  | [], _ => []
  | r :: rest, offset => (offset, entryRecBytes r) :: entryWrites rest (offset + 0x10)

/-- The filename-table writes (source lines 391-401): each name's bytes
followed by one NUL terminator, at a running cursor. -/
def nameWrites : List FileContents → Nat → List (Nat × Bytes)
  | [], _ => []
  | f :: rest, name_offs =>
    (name_offs, f.filename ++ [0]) :: nameWrites rest (name_offs + f.filename.length + 1)

/-- `pack_from_files` (source lines 254-449), with panics modelled as
`none`; the external BPE encoder is the injected collaborator and the LZ10
arm is the source's `todo!()`, an unconditional panic. -/
def pack_from_files (C : Codec) (input : List FileContents) (version : Version)
    (compression_type : CompressionType) (offset : GFCPOffset) : Option Bytes := do
  let file_count := input.length
  let decompressed_chunk := decompressedChunk input
  let compressed_chunk ← match compression_type with
    | .BPE => some (C.bpeEncode decompressed_chunk)
    | .LZ10 => none
  let file_name_section_length := nameSectionLength input
  let size := archive_size offset file_count file_name_section_length compressed_chunk.length
  let output : Bytes := List.replicate size 0
  let file_info_size := (4 + file_count * 0x10 + file_name_section_length + file_count) % 4294967296
  let file_info_size_rounded := round16 file_info_size
  let gfcp_offset := match offset with
    | .Default => (0x30 + file_info_size_rounded) % 4294967296
    | .Custom offs => offs % 4294967296
  let output ← writeMany output [
    (0x0, gfacMagic),
    (0x4, le32bytes (versionCode version)),
    (0x8, [1]),
    (0xC, le32bytes 0x2C),
    (0x10, le32bytes file_info_size),
    (0x14, le32bytes gfcp_offset),
    (0x18, le32bytes ((0x14 + compressed_chunk.length) % 4294967296)),
    (0x2C, le32bytes (file_count % 4294967296))]
  let records := entryRecords input (0x30 + file_count * 0x10) (0x30 + file_info_size_rounded)
  let output ← writeMany output (entryWrites records 0x30)
  let output ← writeMany output (nameWrites input (0x30 + file_count * 0x10))
  let output ← writeMany output [
    (gfcp_offset, gfcpMagic),
    (gfcp_offset + 0x4, le32bytes 1),
    (gfcp_offset + 0x8, le32bytes (compressionCode compression_type)),
    (gfcp_offset + 0xC, le32bytes (decompressed_chunk.length % 4294967296)),
    (gfcp_offset + 0x10, le32bytes (compressed_chunk.length % 4294967296))]
  let target_offset := gfcp_offset + 0x14
  let output :=
    if target_offset + compressed_chunk.length > output.length then
      output ++ List.replicate (target_offset + compressed_chunk.length - output.length) 0
    else output
  writeBytes output target_offset compressed_chunk

/-- `pack_from_bytes` (source lines 220-239): `assert_eq!` on the two list
lengths (panic, `none`, on mismatch), then the `FileContents` pairing passed
on to `pack_from_files`. -/
def pack_from_bytes (C : Codec) (input : List Bytes) (filenames : List Bytes)
    (version : Version) (compression_type : CompressionType) (offset : GFCPOffset) :
    Option Bytes :=
  if input.length = filenames.length then
    pack_from_files C
      ((List.range input.length).map fun i =>
        (⟨(input.get? i).getD [], (filenames.get? i).getD []⟩ : FileContents))
      version compression_type offset
  else none

instance : Inhabited FileContents := ⟨⟨[], []⟩⟩

/-- `u32::swap_bytes`, as used by the source's checksum test. -/
def byteswap32 (v : Nat) : Nat :=
  v % 256 * 16777216 + v / 256 % 256 * 65536 + v / 65536 % 256 * 256 + v / 16777216 % 256

/-- The ASCII bytes of `"sea_turtle_01.brres"`, the sample of the source's
`validate_checksum` test. -/
def seaTurtleName : Bytes :=
  [115, 101, 97, 95, 116, 117, 114, 116, 108, 101, 95, 48, 49, 46, 98, 114, 114, 101, 115]

/-- Sum of the 16-byte-rounded content lengths of a list of files. -/
def sumPadded (l : List FileContents) : Nat :=
  (l.map fun f => round16 f.contents.length).sum

/-- Total space of the filename table: each name plus its NUL terminator. -/
def nameSpan (l : List FileContents) : Nat :=
  (l.map fun f => f.filename.length + 1).sum

theorem checksumLoop_eq_foldl (l : Bytes) (r : Nat) :
    checksumLoop r l = l.foldl (fun result c => (c + result * 137) % 4294967296) r := by
  induction l generalizing r with
  | nil => rfl
  | cons c rest ih =>
    show checksumLoop ((c + r * 137 % 4294967296) % 4294967296) rest
        = rest.foldl (fun result c => (c + result * 137) % 4294967296) ((c + r * 137) % 4294967296)
    rw [ih]
    congr 1
    omega

/-- C1: the round-trip claim quantifies over both compression schemes, but
the source's `pack_from_files` has `CompressionType::LZ10 => todo!()`:
packing with LZ10 panics unconditionally, for every input, version and
layout, so no archive is ever produced to extract. -/
theorem c1_pack_lz10_unimplemented (C : Codec) (input : List FileContents)
    (version : Version) (offset : GFCPOffset) :
    pack_from_files C input version .LZ10 offset = none := rfl

/-- C2: `extract` performs no bounds checking: on the empty buffer the very
first operation, the slice `&input[..4]`, is out of range and the function
panics (modelled as `none`) instead of returning any error value — and the
`GfArchError` type has no `TruncatedArchiveError` variant to return. -/
theorem c2_extract_short_buffer_panics (C : Codec) : extract C [] = none := rfl

/-- C4: `calculate_checksum` is the left fold over the input bytes starting
from 0 with step `result = byte + result * 137` in wrapping 32-bit
arithmetic, and on `"sea_turtle_01.brres"` the byte-reversed result is
`0xCC91B7B8`, as the source's `validate_checksum` test asserts. -/
theorem c4_checksum :
    (∀ input : Bytes,
      calculate_checksum input
        = input.foldl (fun result c => (c + result * 137) % 4294967296) 0)
    ∧ byteswap32 (calculate_checksum seaTurtleName) = 0xCC91B7B8 :=
  ⟨fun input => checksumLoop_eq_foldl input 0, by decide⟩

/-- C7: writer-side contract violations are not reported as recoverable
errors.  A contents/filenames length mismatch hits `assert_eq!` in
`pack_from_bytes` and panics (`none`), and a filename containing a NUL byte
is not checked anywhere: `pack_from_files` silently proceeds and returns an
archive (here with the stub codec, for the name `"a\x00b"`). -/
theorem c7_writer_contract_violations :
    (∀ (C : Codec) (input filenames : List Bytes) (version : Version)
      (compression_type : CompressionType) (offset : GFCPOffset),
      input.length ≠ filenames.length →
      pack_from_bytes C input filenames version compression_type offset = none)
    ∧ (pack_from_files idCodec [⟨[1], [97, 0, 98]⟩] .V3 .BPE .Default).isSome = true := by
  constructor
  · intro C input filenames version compression_type offset h
    simp only [pack_from_bytes, if_neg h]
  · set_option maxRecDepth 4000 in decide

theorem c7_witness :
    ([[1]] : List Bytes).length ≠ ([] : List Bytes).length
    ∧ pack_from_bytes idCodec [[1]] [] .V3 .BPE .Default = none :=
  ⟨by decide,
    c7_writer_contract_violations.1 idCodec [[1]] [] .V3 .BPE .Default (by decide)⟩

theorem range_map_getD_eq_zipWith (input filenames : List Bytes)
    (h : input.length = filenames.length) :
    (List.range input.length).map (fun i =>
        (⟨(input.get? i).getD [], (filenames.get? i).getD []⟩ : FileContents))
      = List.zipWith (fun c f => (⟨c, f⟩ : FileContents)) input filenames := by
  induction input generalizing filenames with
  | nil => simp
  | cons a as ih =>
    cases filenames with
    | nil => simp at h
    | cons b bs =>
      simp only [List.length_cons, List.range_succ_eq_map, List.map_cons, List.map_map]
      simp only [List.get?_cons_zero, Option.getD_some, List.zipWith_cons_cons]
      refine congrArg _ ?_
      have hcomp : ((fun i =>
            (⟨((a :: as).get? i).getD [], ((b :: bs).get? i).getD []⟩ : FileContents)) ∘ Nat.succ)
          = fun i => (⟨(as.get? i).getD [], (bs.get? i).getD []⟩ : FileContents) := by
        funext i
        rfl
      rw [hcomp]
      exact ih bs (by simpa using h)

/-- C10: `pack_from_bytes` (after its length assertion) builds the
`FileContents` list pairing `input[i]` with `filenames[i]` in order and
delegates to `pack_from_files`, so on equal-length lists the two functions
return the same buffer. -/
theorem c10_pack_from_bytes_refines (C : Codec) (input filenames : List Bytes)
    (version : Version) (compression_type : CompressionType) (offset : GFCPOffset)
    (h : input.length = filenames.length) :
    pack_from_bytes C input filenames version compression_type offset
      = pack_from_files C (List.zipWith (fun c f => (⟨c, f⟩ : FileContents)) input filenames)
          version compression_type offset := by
  simp only [pack_from_bytes, if_pos h, range_map_getD_eq_zipWith input filenames h]

theorem round16_le (n : Nat) : n ≤ round16 n := by
  unfold round16
  omega

theorem round16_dvd (n : Nat) : 16 ∣ round16 n := by
  unfold round16
  omega

theorem round16_add_multiple {a : Nat} (h : 16 ∣ a) (b : Nat) :
    round16 (a + b) = a + round16 b := by
  unfold round16
  omega

theorem padTo16_length (b : Bytes) : (padTo16 b).length = round16 b.length := by
  have := round16_le b.length
  simp [padTo16]
  omega

theorem padTo16_append {acc : Bytes} (h : 16 ∣ acc.length) (c : Bytes) :
    padTo16 (acc ++ c) = acc ++ padTo16 c := by
  have harith : round16 (acc.length + c.length) - (acc.length + c.length)
      = round16 c.length - c.length := by
    rw [round16_add_multiple h]
    omega
  simp only [padTo16, List.length_append, harith, List.append_assoc]

theorem decompressedChunk_foldl (l : List FileContents) (acc : Bytes)
    (h : 16 ∣ acc.length) :
    l.foldl (fun a f => padTo16 (a ++ f.contents)) acc
      = acc ++ (l.map fun f => padTo16 f.contents).flatten := by
  induction l generalizing acc with
  | nil => simp
  | cons f rest ih =>
    simp only [List.foldl_cons, List.map_cons, List.flatten_cons]
    rw [padTo16_append h f.contents]
    have h2 : 16 ∣ (acc ++ padTo16 f.contents).length := by
      simp only [List.length_append, padTo16_length]
      exact Nat.dvd_add h (round16_dvd _)
    rw [ih (acc ++ padTo16 f.contents) h2]
    simp [List.append_assoc]

theorem entryRecords_length (l : List FileContents) (c d : Nat) :
    (entryRecords l c d).length = l.length := by
  induction l generalizing c d with
  | nil => rfl
  | cons f rest ih =>
    simp only [entryRecords, List.length_cons, ih]

theorem sumPadded_cons (f : FileContents) (rest : List FileContents) :
    sumPadded (f :: rest) = round16 f.contents.length + sumPadded rest := by
  simp [sumPadded]

theorem entryRecords_offset_getD (l : List FileContents) (c d i : Nat)
    (hi : i < l.length)
    (hsz : ∀ f ∈ l, f.contents.length < 4294967296)
    (hb : d + sumPadded l < 4294967296) :
    ((entryRecords l c d).getD i default).offset = d + sumPadded (l.take i) := by
  induction l generalizing c d i with
  | nil => simp at hi
  | cons f rest ih =>
    have hf : f.contents.length < 4294967296 := hsz f (by simp)
    have hfmod : f.contents.length % 4294967296 = f.contents.length :=
      Nat.mod_eq_of_lt hf
    cases i with
    | zero =>
      show d % 4294967296 = d + sumPadded []
      have : d < 4294967296 := by
        have := hb
        omega
      simp [sumPadded, Nat.mod_eq_of_lt this]
    | succ i =>
      show ((entryRecords rest (c + f.filename.length + 1)
          (d + round16 (f.contents.length % 4294967296))).getD i default).offset
        = d + sumPadded (f :: rest.take i)
      rw [hfmod]
      rw [ih (c + f.filename.length + 1) (d + round16 f.contents.length) i
        (by simpa using hi)
        (fun g hg => hsz g (by simp [hg]))
        (by rw [sumPadded_cons] at hb; omega)]
      rw [sumPadded_cons]
      omega

/-- C5: in the entry table written by `pack_from_files` (for any name cursor
and any starting data cursor, in particular the ones `pack_from_files`
uses, provided the 32-bit fields do not wrap), each entry's
`decompressed_offset` exceeds the previous one's by exactly the previous
content length rounded up to a multiple of 16; and the payload handed to
the compressor is the concatenation of the contents, each zero-padded to
the next multiple of 16. -/
theorem c5_alignment_and_payload :
    (∀ (l : List FileContents) (c d i : Nat),
      i + 1 < l.length →
      (∀ f ∈ l, f.contents.length < 4294967296) →
      d + sumPadded l < 4294967296 →
      ((entryRecords l c d).getD (i + 1) default).offset
          - ((entryRecords l c d).getD i default).offset
        = round16 (l.getD i default).contents.length)
    ∧ (∀ input : List FileContents,
      decompressedChunk input = (input.map fun f => padTo16 f.contents).flatten) := by
  constructor
  · intro l c d i hi hsz hb
    rw [entryRecords_offset_getD l c d i (by omega) hsz hb,
      entryRecords_offset_getD l c d (i + 1) hi hsz hb]
    have hget : l[i]? = some (l.getD i default) := by
      rw [List.getD_eq_getElem?_getD]
      cases hg : l[i]? with
      | none => exact absurd (List.getElem?_eq_none_iff.mp hg) (by omega)
      | some x => rfl
    have htake : l.take (i + 1) = l.take i ++ [l.getD i default] := by
      rw [List.take_succ, hget]
      rfl
    rw [htake]
    simp only [sumPadded, List.map_append, List.sum_append, List.map_cons,
      List.map_nil, List.sum_cons, List.sum_nil]
    omega
  · intro input
    exact decompressedChunk_foldl input [] (by simp)

theorem c5_witness :
    ((entryRecords [⟨[1, 2, 3], [97]⟩, ⟨[5], [98]⟩] 0 0x60).getD 1 default).offset
        - ((entryRecords [⟨[1, 2, 3], [97]⟩, ⟨[5], [98]⟩] 0 0x60).getD 0 default).offset
      = round16 (([⟨[1, 2, 3], [97]⟩, ⟨[5], [98]⟩] : List FileContents).getD 0
          default).contents.length :=
  c5_alignment_and_payload.1 [⟨[1, 2, 3], [97]⟩, ⟨[5], [98]⟩] 0 0x60 0
    (by decide) (by decide) (by decide)

theorem lor_flag_mod24 (v : Nat) : (v ||| 0x80000000) % 16777216 = v % 16777216 := by
  apply Nat.eq_of_testBit_eq
  intro i
  have h31 : (0x80000000 : Nat) = 2 ^ 31 := by norm_num
  have h24 : (16777216 : Nat) = 2 ^ 24 := by norm_num
  rw [h31, h24, Nat.testBit_mod_two_pow, Nat.testBit_mod_two_pow, Nat.testBit_lor,
    Nat.testBit_two_pow]
  rcases Nat.lt_or_ge i 24 with h | h
  · simp [h, Nat.ne_of_gt (by omega : 31 > i)]
  · simp [Nat.not_lt.mpr h]

theorem testBit31_lor_flag (v : Nat) : Nat.testBit (v ||| 0x80000000) 31 = true := by
  have h31 : (0x80000000 : Nat) = 2 ^ 31 := by norm_num
  rw [h31, Nat.testBit_lor, Nat.testBit_two_pow]
  simp

theorem nameSpan_cons (f : FileContents) (rest : List FileContents) :
    nameSpan (f :: rest) = f.filename.length + 1 + nameSpan rest := by
  simp [nameSpan]

theorem entryRecords_flag_iff (l : List FileContents) (c d : Nat)
    (hne : l ≠ [])
    (hb : c + nameSpan l < 2147483648)
    (i : Nat) (hi : i < (entryRecords l c d).length) :
    (Nat.testBit ((entryRecords l c d).getD i default).nameOffset 31 = true
      ↔ i = l.length - 1) := by
  induction l generalizing c d i with
  | nil => exact absurd rfl hne
  | cons f rest ih =>
    rw [entryRecords_length] at hi
    cases hr : rest with
    | nil =>
      subst hr
      have hi0 : i = 0 := by
        simp only [List.length_cons, List.length_nil] at hi
        omega
      subst hi0
      show Nat.testBit (c % 4294967296 ||| 0x80000000) 31 = true ↔ 0 = 0
      rw [testBit31_lor_flag]
      exact ⟨fun _ => rfl, fun _ => rfl⟩
    | cons g rs =>
      subst hr
      have hc : c < 2147483648 := by
        rw [nameSpan_cons] at hb
        omega
      cases i with
      | zero =>
        show Nat.testBit (c % 4294967296) 31 = true ↔ 0 = (g :: rs).length + 1 - 1
        rw [Nat.mod_eq_of_lt (by omega : c < 4294967296)]
        rw [Nat.testBit_lt_two_pow (by exact_mod_cast hc)]
        simp [List.length_cons]
      | succ i =>
        show Nat.testBit ((entryRecords (g :: rs)
            (c + f.filename.length + 1)
            (d + round16 (f.contents.length % 4294967296))).getD i default).nameOffset 31 = true
          ↔ i + 1 = (f :: g :: rs).length - 1
        rw [ih (c + f.filename.length + 1) (d + round16 (f.contents.length % 4294967296))
          (by simp)
          (by rw [nameSpan_cons] at hb; omega)
          i
          (by rw [entryRecords_length]; simpa using hi)]
        simp only [List.length_cons]
        omega

/-- C6: in the entry table written by `pack_from_files` for a nonempty input
(any name cursor below the bit-31 boundary, in particular the one
`pack_from_files` uses), bit 31 of `name_offset` is set exactly on the last
record; and the reader's `FileEntry::from_bytes` masks `name_offset` with
`0x00FFFFFF`, so the serialized record of a flagged entry reads back as the
plain offset. -/
theorem c6_last_entry_flag :
    (∀ (l : List FileContents) (c d : Nat),
      l ≠ [] →
      c + nameSpan l < 2147483648 →
      ∀ i, i < (entryRecords l c d).length →
        (Nat.testBit ((entryRecords l c d).getD i default).nameOffset 31 = true
          ↔ i = l.length - 1))
    ∧ (∀ r : EntryRec,
      (FileEntry.from_bytes (entryRecBytes r)).nameOffset = r.nameOffset % 16777216)
    ∧ (∀ v checksum size offset : Nat, v < 16777216 →
      (FileEntry.from_bytes
        (entryRecBytes ⟨checksum, v ||| 0x80000000, size, offset⟩)).nameOffset = v) := by
  refine ⟨entryRecords_flag_iff, ?_, ?_⟩
  · intro r
    show le32 (((entryRecBytes r).drop 4).take 4) % 16777216 = r.nameOffset % 16777216
    have hdrop : ((entryRecBytes r).drop 4).take 4 = le32bytes r.nameOffset := by
      simp [entryRecBytes, le32bytes]
    rw [hdrop, le32_le32bytes]
    exact Nat.mod_mod_of_dvd _ (by norm_num)
  · intro v checksum size offset hv
    show le32 (((entryRecBytes ⟨checksum, v ||| 0x80000000, size, offset⟩).drop 4).take 4)
        % 16777216 = v
    have hdrop : ((entryRecBytes ⟨checksum, v ||| 0x80000000, size, offset⟩).drop 4).take 4
        = le32bytes (v ||| 0x80000000) := by
      simp [entryRecBytes, le32bytes]
    rw [hdrop, le32_le32bytes, Nat.mod_mod_of_dvd _ (by norm_num : (16777216 : Nat) ∣ 4294967296),
      lor_flag_mod24, Nat.mod_eq_of_lt hv]

theorem c6_witness :
    (Nat.testBit ((entryRecords [⟨[1], [97]⟩, ⟨[2], [98, 99]⟩] 0x50 0).getD 1
        default).nameOffset 31 = true ↔ 1 = 1)
    ∧ (FileEntry.from_bytes (entryRecBytes ⟨7, 70 ||| 0x80000000, 3, 9⟩)).nameOffset = 70 :=
  ⟨c6_last_entry_flag.1 [⟨[1], [97]⟩, ⟨[2], [98, 99]⟩] 0x50 0 (by decide) (by decide) 1
      (by decide),
    c6_last_entry_flag.2.2 70 7 3 9 (by decide)⟩

theorem opt_bind_some {α β : Type} (a : α) (f : α → Option β) :
    (Bind.bind (some a) f : Option β) = f a := rfl

theorem opt_pure {α : Type} (a : α) : (pure a : Option α) = some a := rfl

theorem extract_bad_magic (C : Codec) (input : Bytes) (m : Bytes)
    (h1 : slice input 0 4 = some m) (h2 : m ≠ gfacMagic) :
    extract C input = some (.error .ArchiveHeaderError) := by
  simp only [extract, h1, opt_bind_some, opt_pure]
  rw [if_pos h2]

theorem extract_after_names (C : Codec) (input : Bytes) (count : Nat)
    (es : List FileEntry) (ns : List Bytes) (g : Nat)
    (h1 : slice input 0 4 = some gfacMagic)
    (h2 : readU32 input 0x2C = some count)
    (h3 : parseEntries input count = some es)
    (h4 : readNames input es = some ns)
    (h5 : readU32 input 0x14 = some g) :
    extract C input = (slice input g (g + 4)).bind fun m =>
      if m ≠ gfcpMagic then some (.error .CompressionHeaderError)
      else (decompressStage C input g).bind fun r =>
        match r with
        | .error e => some (.error e)
        | .ok chunk => (assembleFiles es ns g count chunk).bind fun files =>
            some (.ok files) := by
  simp only [extract, h1, h2, h3, h4, h5, opt_bind_some, opt_pure]
  rw [if_neg (not_not_intro rfl)]
  rfl

theorem extract_bad_gfcp (C : Codec) (input : Bytes) (count : Nat)
    (es : List FileEntry) (ns : List Bytes) (g : Nat) (m : Bytes)
    (h1 : slice input 0 4 = some gfacMagic)
    (h2 : readU32 input 0x2C = some count)
    (h3 : parseEntries input count = some es)
    (h4 : readNames input es = some ns)
    (h5 : readU32 input 0x14 = some g)
    (h6 : slice input g (g + 4) = some m) (h7 : m ≠ gfcpMagic) :
    extract C input = some (.error .CompressionHeaderError) := by
  rw [extract_after_names C input count es ns g h1 h2 h3 h4 h5, h6,
    Option.some_bind, if_pos h7]

theorem extract_after_gfcp (C : Codec) (input : Bytes) (count : Nat)
    (es : List FileEntry) (ns : List Bytes) (g : Nat)
    (h1 : slice input 0 4 = some gfacMagic)
    (h2 : readU32 input 0x2C = some count)
    (h3 : parseEntries input count = some es)
    (h4 : readNames input es = some ns)
    (h5 : readU32 input 0x14 = some g)
    (h6 : slice input g (g + 4) = some gfcpMagic) :
    extract C input = (decompressStage C input g).bind fun r =>
      match r with
      | .error e => some (.error e)
      | .ok chunk => (assembleFiles es ns g count chunk).bind fun files =>
          some (.ok files) := by
  rw [extract_after_names C input count es ns g h1 h2 h3 h4 h5, h6,
    Option.some_bind, if_neg (not_not_intro rfl)]

theorem decompressStage_unsupported (C : Codec) (input : Bytes) (g raw : Nat)
    (h : readU32 input (g + 0x8) = some raw) (h1 : raw ≠ 1) (h3 : raw ≠ 3) :
    decompressStage C input g
      = some (.error (.UnsupportedCompressionTypeError raw)) := by
  simp only [decompressStage, h, opt_bind_some, opt_pure]

theorem decompressStage_bpe (C : Codec) (input : Bytes) (g : Nat) (payload : Bytes)
    (h : readU32 input (g + 0x8) = some 1)
    (hp : slice input (g + 0x14) input.length = some payload) :
    decompressStage C input g = some (.ok (C.bpeDecode payload)) := by
  simp only [decompressStage, h, hp, opt_bind_some, opt_pure]

theorem decompressStage_lz10_reject (C : Codec) (input : Bytes) (g dsz : Nat)
    (payload : Bytes)
    (h : readU32 input (g + 0x8) = some 3)
    (hd : readU32 input (g + 0xC) = some dsz)
    (hp : slice input (g + 0x14) input.length = some payload)
    (hrej : C.lz10Decompress (0x10 :: (le32bytes dsz).take 3 ++ payload) = none) :
    decompressStage C input g = some (.error .LZ10DecompressError) := by
  simp only [decompressStage, h, hd, hp, opt_bind_some, opt_pure]
  rw [hrej]

/-- C3 counterexample: the claim quantifies over every buffer not starting
with `"GFAC"`, but on the one-byte buffer `[71]` the magic comparison's
slice `&input[..4]` is already out of range, so `extract` panics (`none`)
instead of returning `ArchiveHeaderError`. -/
theorem c3_short_buffer_counterexample :
    extract idCodec [71] = none
    ∧ extract idCodec [71] ≠ some (Except.error GfArchError.ArchiveHeaderError) :=
  ⟨rfl, fun h => Option.noConfusion h⟩

/-- C3 (amended): the error taxonomy of `extract` holds once every read the
code performs before the classification is in range: a readable 4-byte
prefix other than `"GFAC"` gives `ArchiveHeaderError`; with the header,
entry table and names parsed and 4 readable bytes other than `"GFCP"` at
`gfcp_offset` it gives `CompressionHeaderError`; a readable type code
outside `{1, 3}` gives `UnsupportedCompressionTypeError(code)`; code 1
hands the tail to the BPE decoder; code 3 with a stream the LZ10 decoder
rejects gives `LZ10DecompressError`. -/
theorem c3_error_taxonomy :
    (∀ (C : Codec) (input m : Bytes),
      slice input 0 4 = some m → m ≠ gfacMagic →
      extract C input = some (.error .ArchiveHeaderError))
    ∧ (∀ (C : Codec) (input : Bytes) (count : Nat) (es : List FileEntry)
        (ns : List Bytes) (g : Nat) (m : Bytes),
      slice input 0 4 = some gfacMagic →
      readU32 input 0x2C = some count →
      parseEntries input count = some es →
      readNames input es = some ns →
      readU32 input 0x14 = some g →
      slice input g (g + 4) = some m → m ≠ gfcpMagic →
      extract C input = some (.error .CompressionHeaderError))
    ∧ (∀ (C : Codec) (input : Bytes) (count : Nat) (es : List FileEntry)
        (ns : List Bytes) (g raw : Nat),
      slice input 0 4 = some gfacMagic →
      readU32 input 0x2C = some count →
      parseEntries input count = some es →
      readNames input es = some ns →
      readU32 input 0x14 = some g →
      slice input g (g + 4) = some gfcpMagic →
      readU32 input (g + 0x8) = some raw → raw ≠ 1 → raw ≠ 3 →
      extract C input = some (.error (.UnsupportedCompressionTypeError raw)))
    ∧ (∀ (C : Codec) (input : Bytes) (count : Nat) (es : List FileEntry)
        (ns : List Bytes) (g : Nat) (payload : Bytes),
      slice input 0 4 = some gfacMagic →
      readU32 input 0x2C = some count →
      parseEntries input count = some es →
      readNames input es = some ns →
      readU32 input 0x14 = some g →
      slice input g (g + 4) = some gfcpMagic →
      readU32 input (g + 0x8) = some 1 →
      slice input (g + 0x14) input.length = some payload →
      extract C input = (assembleFiles es ns g count (C.bpeDecode payload)).bind
        fun files => some (.ok files))
    ∧ (∀ (C : Codec) (input : Bytes) (count : Nat) (es : List FileEntry)
        (ns : List Bytes) (g dsz : Nat) (payload : Bytes),
      slice input 0 4 = some gfacMagic →
      readU32 input 0x2C = some count →
      parseEntries input count = some es →
      readNames input es = some ns →
      readU32 input 0x14 = some g →
      slice input g (g + 4) = some gfcpMagic →
      readU32 input (g + 0x8) = some 3 →
      readU32 input (g + 0xC) = some dsz →
      slice input (g + 0x14) input.length = some payload →
      C.lz10Decompress (0x10 :: (le32bytes dsz).take 3 ++ payload) = none →
      extract C input = some (.error .LZ10DecompressError)) := by
  refine ⟨extract_bad_magic, extract_bad_gfcp, ?_, ?_, ?_⟩
  · intro C input count es ns g raw h1 h2 h3 h4 h5 h6 h7 hr1 hr3
    rw [extract_after_gfcp C input count es ns g h1 h2 h3 h4 h5 h6,
      decompressStage_unsupported C input g raw h7 hr1 hr3]
    rfl
  · intro C input count es ns g payload h1 h2 h3 h4 h5 h6 h7 hp
    rw [extract_after_gfcp C input count es ns g h1 h2 h3 h4 h5 h6,
      decompressStage_bpe C input g payload h7 hp]
    rfl
  · intro C input count es ns g dsz payload h1 h2 h3 h4 h5 h6 h7 hd hp hrej
    rw [extract_after_gfcp C input count es ns g h1 h2 h3 h4 h5 h6,
      decompressStage_lz10_reject C input g dsz payload h7 hd hp hrej]
    rfl

set_option maxHeartbeats 2000000 in
theorem c3_witness :
    extract idCodec [0, 0, 0, 0] = some (.error .ArchiveHeaderError)
    ∧ extract idCodec (gfacMagic ++ List.replicate 16 0 ++ [48, 0, 0, 0]
        ++ List.replicate 24 0 ++ [1, 2, 3, 4])
      = some (.error .CompressionHeaderError)
    ∧ extract idCodec (gfacMagic ++ List.replicate 16 0 ++ [48, 0, 0, 0]
        ++ List.replicate 24 0 ++ gfcpMagic ++ [0, 0, 0, 0] ++ [2, 0, 0, 0]
        ++ List.replicate 8 0)
      = some (.error (.UnsupportedCompressionTypeError 2))
    ∧ extract idCodec (gfacMagic ++ List.replicate 16 0 ++ [48, 0, 0, 0]
        ++ List.replicate 24 0 ++ gfcpMagic ++ [0, 0, 0, 0] ++ [1, 0, 0, 0]
        ++ List.replicate 8 0)
      = ((assembleFiles [] [] 48 0 (idCodec.bpeDecode [])).bind fun files =>
          (some (Except.ok files) : Option (Except GfArchError (List FileContents))))
    ∧ extract rejectLzCodec (gfacMagic ++ List.replicate 16 0 ++ [48, 0, 0, 0]
        ++ List.replicate 24 0 ++ gfcpMagic ++ [0, 0, 0, 0] ++ [3, 0, 0, 0]
        ++ List.replicate 8 0)
      = some (.error .LZ10DecompressError) :=
  ⟨c3_error_taxonomy.1 idCodec [0, 0, 0, 0] [0, 0, 0, 0] (by decide) (by decide),
    c3_error_taxonomy.2.1 idCodec _ 0 [] [] 48 [1, 2, 3, 4]
      (by decide) (by decide) (by decide) (by decide) (by decide) (by decide) (by decide),
    c3_error_taxonomy.2.2.1 idCodec _ 0 [] [] 48 2
      (by decide) (by decide) (by decide) (by decide) (by decide) (by decide) (by decide)
      (by decide) (by decide),
    c3_error_taxonomy.2.2.2.1 idCodec _ 0 [] [] 48 []
      (by decide) (by decide) (by decide) (by decide) (by decide) (by decide) (by decide)
      (by decide),
    c3_error_taxonomy.2.2.2.2 rejectLzCodec _ 0 [] [] 48 0 []
      (by decide) (by decide) (by decide) (by decide) (by decide) (by decide) (by decide)
      (by decide) (by decide) (by decide)⟩

theorem opt_bind_eq_some {α β : Type} {x : Option α} {f : α → Option β} {b : β} :
    (Bind.bind x f : Option β) = some b ↔ ∃ a, x = some a ∧ f a = some b :=
  Option.bind_eq_some

theorem writeBytes_length {buf : Bytes} {o : Nat} {d : Bytes} {buf' : Bytes}
    (h : writeBytes buf o d = some buf') : buf'.length = buf.length := by
  unfold writeBytes at h
  split at h
  · rename_i hle
    have hb : buf' = buf.take o ++ d ++ buf.drop (o + d.length) := (Option.some.inj h).symm
    subst hb
    simp only [List.length_append, List.length_take, List.length_drop]
    omega
  · cases h

theorem writeBytes_bound {buf : Bytes} {o : Nat} {d : Bytes} {buf' : Bytes}
    (h : writeBytes buf o d = some buf') : o + d.length ≤ buf.length := by
  unfold writeBytes at h
  split at h
  · assumption
  · cases h

theorem writeBytes_eq {buf : Bytes} {o : Nat} {d : Bytes} {buf' : Bytes}
    (h : writeBytes buf o d = some buf') :
    buf' = buf.take o ++ d ++ buf.drop (o + d.length) := by
  unfold writeBytes at h
  split at h
  · exact (Option.some.inj h).symm
  · cases h

theorem writeBytes_get?_lt {buf : Bytes} {o : Nat} {d : Bytes} {buf' : Bytes}
    (h : writeBytes buf o d = some buf') {i : Nat} (hi : i < o) :
    buf'.get? i = buf.get? i := by
  have hle := writeBytes_bound h
  rw [writeBytes_eq h, List.append_assoc,
    List.get?_append (by simp only [List.length_take]; omega), List.get?_take hi]

theorem writeBytes_get?_read {buf : Bytes} {o : Nat} {d : Bytes} {buf' : Bytes}
    (h : writeBytes buf o d = some buf') {j : Nat} (hj : j < d.length) :
    buf'.get? (o + j) = d.get? j := by
  have hle := writeBytes_bound h
  have hlen : (buf.take o).length = o := by
    simp only [List.length_take]
    omega
  rw [writeBytes_eq h, List.append_assoc,
    List.get?_append_right (by omega : (buf.take o).length ≤ o + j), hlen,
    Nat.add_sub_cancel_left, List.get?_append hj]

theorem writeMany_length : ∀ (ws : List (Nat × Bytes)) (buf buf' : Bytes),
    writeMany buf ws = some buf' → buf'.length = buf.length
  | [], buf, buf', h => by
    cases h
    rfl
  | (o, d) :: rest, buf, buf', h => by
    unfold writeMany at h
    rw [opt_bind_eq_some] at h
    obtain ⟨b1, hw, h⟩ := h
    rw [writeMany_length rest b1 buf' h, writeBytes_length hw]

theorem writeBytes_isSome {buf : Bytes} {o : Nat} {d : Bytes}
    (h : o + d.length ≤ buf.length) :
    writeBytes buf o d = some (buf.take o ++ d ++ buf.drop (o + d.length)) := by
  unfold writeBytes
  rw [if_pos h]

theorem writeMany_isSome : ∀ (ws : List (Nat × Bytes)) (buf : Bytes),
    (∀ p ∈ ws, p.1 + p.2.length ≤ buf.length) →
    ∃ buf', writeMany buf ws = some buf' ∧ buf'.length = buf.length
  | [], buf, _ => ⟨buf, rfl, rfl⟩
  | (o, d) :: rest, buf, h => by
    have h1 : o + d.length ≤ buf.length := h (o, d) (by simp)
    have hw := writeBytes_isSome h1
    have hlen : (buf.take o ++ d ++ buf.drop (o + d.length)).length = buf.length := by
      simp only [List.length_append, List.length_take, List.length_drop]
      omega
    obtain ⟨buf', hws, hl⟩ := writeMany_isSome rest (buf.take o ++ d ++ buf.drop (o + d.length))
      (fun p hp => by rw [hlen]; exact h p (by simp [hp]))
    refine ⟨buf', ?_, by rw [hl, hlen]⟩
    unfold writeMany
    rw [hw]
    simpa [opt_bind_some] using hws

theorem pack_custom_props (C : Codec) (input : List FileContents) (version : Version)
    (ct : CompressionType) (offs : Nat) (out : Bytes)
    (h : pack_from_files C input version ct (GFCPOffset.Custom offs) = some out) :
    out.length = offs + 0x14 + (C.bpeEncode (decompressedChunk input)).length
    ∧ ∀ j, j < 4 →
        out.get? (offs % 4294967296 + j) = gfcpMagic.get? j := by
  cases ct with
  | LZ10 => exact absurd h (by simp [pack_from_files])
  | BPE =>
    simp only [pack_from_files, opt_bind_some, opt_pure, opt_bind_eq_some] at h
    obtain ⟨b1, hw1, b2, hw2, b3, hw3, b4, hw4, h⟩ := h
    have hsize : (List.replicate
        (archive_size (GFCPOffset.Custom offs) input.length (nameSectionLength input)
          (C.bpeEncode (decompressedChunk input)).length) (0 : Nat)).length
        = offs + 0x14 + (C.bpeEncode (decompressedChunk input)).length := by
      simp [archive_size]
    have hl1 := writeMany_length _ _ _ hw1
    have hl2 := writeMany_length _ _ _ hw2
    have hl3 := writeMany_length _ _ _ hw3
    have hl4 := writeMany_length _ _ _ hw4
    have hlen4 : b4.length = offs + 0x14 + (C.bpeEncode (decompressedChunk input)).length := by
      rw [hl4, hl3, hl2, hl1, hsize]
    have hnogrow : ¬ (offs % 4294967296 + 0x14
        + (C.bpeEncode (decompressedChunk input)).length > b4.length) := by
      rw [hlen4]
      have := Nat.mod_le offs 4294967296
      omega
    rw [if_neg hnogrow] at h
    constructor
    · rw [writeBytes_length h, hlen4]
    · intro j hj
      have hfinal : out.get? (offs % 4294967296 + j) = b4.get? (offs % 4294967296 + j) :=
        writeBytes_get?_lt h (by omega)
      simp only [writeMany, opt_bind_eq_some, opt_bind_some] at hw4
      obtain ⟨c1, hc1, c2, hc2, c3, hc3, c4, hc4, c5, hc5, hfin⟩ := hw4
      cases hfin
      rw [hfinal,
        writeBytes_get?_lt hc5 (by omega),
        writeBytes_get?_lt hc4 (by omega),
        writeBytes_get?_lt hc3 (by omega),
        writeBytes_get?_lt hc2 (by omega)]
      exact writeBytes_get?_read hc1 (by simpa [gfcpMagic] using hj)

/-- C8 counterexample: under the Default layout with a single file whose
name is 12 bytes long, the precomputed size is 116 bytes (it rounds only
the bare name lengths), while `gfcp_offset` is computed from the rounded
`file_info_size` (which also counts the 4-byte prologue and the NUL), so
the compressed chunk ends at 132 and the buffer is extended — under the
Default layout, contradicting the claim. -/
theorem c8_default_extends_counterexample :
    (pack_from_files idCodec
        [⟨[1], [104, 101, 108, 108, 111, 95, 119, 111, 114, 108, 100, 95]⟩]
        .V3 .BPE .Default).map List.length = some 132
    ∧ archive_size .Default 1
        (nameSectionLength
          [⟨[1], [104, 101, 108, 108, 111, 95, 119, 111, 114, 108, 100, 95]⟩])
        (idCodec.bpeEncode (decompressedChunk
          [⟨[1], [104, 101, 108, 108, 111, 95, 119, 111, 114, 108, 100, 95]⟩])).length
      = 116
    ∧ (132 : Nat) ≠ 116 := by
  refine ⟨?_, by decide, by decide⟩
  set_option maxRecDepth 4000 in decide

/-- C8 (amended): it is the Custom layout under which the precomputed size
is always exactly sufficient — a Custom-layout archive is never extended
and its final length equals `offset + 0x14 + compressed_len` — while under
the Default layout the precomputed size can undershoot (see the
counterexample) and the buffer is then extended before the chunk is
appended. -/
theorem c8_custom_layout_exact :
    (∀ (C : Codec) (input : List FileContents) (version : Version)
        (ct : CompressionType) (offs : Nat),
      match pack_from_files C input version ct (.Custom offs) with
      | some out =>
          out.length = offs + 0x14 + (C.bpeEncode (decompressedChunk input)).length
      | none => True)
    ∧ (pack_from_files idCodec [⟨[1], [97]⟩] .V3 .BPE (.Custom 0x44)).map List.length
      = some 104 := by
  constructor
  · intro C input version ct offs
    cases hp : pack_from_files C input version ct (.Custom offs) with
    | none => trivial
    | some out => exact (pack_custom_props C input version ct offs out hp).1
  · set_option maxRecDepth 4000 in decide

theorem opt_bind_eq_none {α β : Type} {x : Option α} {f : α → Option β} :
    (Bind.bind x f : Option β) = none ↔ ∀ a, x = some a → f a = none := by
  cases x <;> simp

/-- C9 counterexample: with a single entry whose filename is 8180 bytes
long and whose contents are empty, the Custom(0x2000) buffer is
`0x2000 + 0x14 + 0 = 8212` bytes, but the filename table would end at
`0x40 + 8181 = 8245`: the name write is out of range and `pack_from_files`
panics instead of producing a buffer, so the claim's "for every entry
list" fails. -/
theorem c9_large_name_panics_counterexample :
    pack_from_files idCodec [⟨[], List.replicate 8180 97⟩] .V3 .BPE (.Custom 0x2000)
      = none := by
  generalize hname : List.replicate 8180 97 = nm
  have hnmlen : nm.length = 8180 := by rw [← hname, List.length_replicate]
  have hchunk : decompressedChunk [(⟨[], nm⟩ : FileContents)] = [] := by
    simp [decompressedChunk, padTo16, round16]
  have hone : List.length [(⟨[], nm⟩ : FileContents)] = 1 := rfl
  simp only [pack_from_files, opt_bind_some, opt_pure, opt_bind_eq_none]
  intro b1 hw1 b2 hw2 b3 hw3
  exfalso
  have hb2 : b2.length = 8212 := by
    rw [writeMany_length _ _ _ hw2, writeMany_length _ _ _ hw1, List.length_replicate,
      hchunk]
    simp only [archive_size, hone]
    simp [idCodec]
  simp only [nameWrites, writeMany, opt_bind_eq_some, opt_bind_some] at hw3
  obtain ⟨bb, hbb, _⟩ := hw3
  have hbound := writeBytes_bound hbb
  rw [hb2] at hbound
  simp only [List.length_append, List.length_cons, List.length_nil, hnmlen, hone] at hbound
  omega

/-- C9 (amended): whenever `pack_from_files` with layout Custom(0x2000)
returns a buffer at all, the 4 bytes of that buffer at offset 0x2000 are
the compression-header magic `"GFCP"`; but for oversized inputs (see the
counterexample) the writer panics instead of producing a buffer, so the
original "for every entry list" quantification fails. -/
theorem c9_gfcp_at_custom_offset :
    ∀ (C : Codec) (input : List FileContents) (version : Version)
      (ct : CompressionType),
    match pack_from_files C input version ct (.Custom 0x2000) with
    | some out =>
        out.get? 0x2000 = some 71 ∧ out.get? 0x2001 = some 70
        ∧ out.get? 0x2002 = some 67 ∧ out.get? 0x2003 = some 80
    | none => True := by
  intro C input version ct
  cases hp : pack_from_files C input version ct (.Custom 0x2000) with
  | none => trivial
  | some out =>
    have hp2 := (pack_custom_props C input version ct 0x2000 out hp).2
    refine ⟨?_, ?_, ?_, ?_⟩
    · simpa [gfcpMagic] using hp2 0 (by omega)
    · simpa [gfcpMagic] using hp2 1 (by omega)
    · simpa [gfcpMagic] using hp2 2 (by omega)
    · simpa [gfcpMagic] using hp2 3 (by omega)

theorem c10_witness :
    ([[1]] : List Bytes).length = ([[97]] : List Bytes).length
    ∧ pack_from_bytes idCodec [[1]] [[97]] .V3 .LZ10 .Default
        = pack_from_files idCodec
            (List.zipWith (fun c f => (⟨c, f⟩ : FileContents)) [[1]] [[97]]) .V3 .LZ10 .Default :=
  ⟨rfl, c10_pack_from_bytes_refines idCodec [[1]] [[97]] .V3 .LZ10 .Default rfl⟩

end GfArch
